import Mathlib

/-!
Verification of the data-ingestion and split-construction pipeline of
`src/data_loader.py` (`ScientificDataProcessor`).

Shallow embedding conventions:
* Python strings are modelled as `List Char` (`PyStr`); the helpers
  (`pyLower`, `pyStrip`, `pySplitWs`, `basename`, `dirname`,
  `splitextStem`) implement the corresponding `str` / `os.path`
  (posixpath) operations on code points.
* Python `float` values appearing in `convert_xml` are modelled as exact
  rationals `ℚ`.  Arithmetic is written with the executable constructors
  `qAdd`, `qSub`, `qDiv`, `qOfInt` (built on `mkRat`); bridge lemmas show
  they agree with the field operations of `ℚ`.
* The 6-decimal formatting `f"{x:.6f}"` is modelled by `fmt6` / `round6`
  (rounding of `x * 10^6` to an integer; the tie-breaking rule is modelled
  as round-half-up, and no claim depends on the behaviour at exact ties).
* The slicing bounds `int(n * 0.7)` and `int(n * 0.85)` are computed by
  CPython in IEEE-754 binary64 arithmetic.  `pyTruncMul` models this
  bit-exactly: `roundSig53` is correct rounding (round-to-nearest,
  ties-to-even) to 53 significant bits, `c07num / 2^53` and
  `c085num / 2^53` are the exact values of the doubles `0.7` and `0.85`.
* The Python standard library RNG (`random.seed` / `random.shuffle`) is
  external to the repository; it is abstracted as a `PRNG` record with a
  `seed` and a `randbelow` operation, and `pyShuffle` is the Fisher-Yates
  loop of `random.shuffle` over an arbitrary such generator.
* Filesystem effects are represented by the data written: `RunOutput`
  records the split slices, the copied files, the label-file writes, the
  per-style buffers and writes, whether the dataset descriptor (yaml) was
  emitted, and which fatal error (if any) was raised.
-/

/-! ## Python string primitives over code-point lists -/

/-- Python strings, as lists of code points. -/
abbrev PyStr := List Char

/-- Model of `str.lower()` (ASCII-adequate for the labels and names used here). -/
def pyLower (s : PyStr) : PyStr := s.map Char.toLower

/-- Model of `str.strip()` with no argument: remove leading and trailing whitespace. -/
def pyStrip (s : PyStr) : PyStr :=
  ((s.dropWhile Char.isWhitespace).reverse.dropWhile Char.isWhitespace).reverse

/-- Worker for `pySplitWs`: accumulates the current (reversed) token. -/
def pySplitWsGo : List Char → List Char → List PyStr
  | [], acc => if acc.isEmpty then [] else [acc.reverse]
  | c :: rest, acc =>
    if c.isWhitespace then
      if acc.isEmpty then pySplitWsGo rest []
      else acc.reverse :: pySplitWsGo rest []
    else pySplitWsGo rest (c :: acc)

/-- Model of `str.split()` with no argument: split on whitespace runs, dropping
empty tokens. -/
def pySplitWs (s : PyStr) : List PyStr := pySplitWsGo s []

/-- Model of `os.path.basename` (posix): everything after the last `/`. -/
def basename (p : PyStr) : PyStr := (p.reverse.takeWhile (· ≠ '/')).reverse

/-- Model of `os.path.dirname` (posix): everything up to the last `/`, with
trailing slashes stripped unless the result is all slashes. -/
def dirname (p : PyStr) : PyStr :=
  let headRev := p.reverse.dropWhile (· ≠ '/')
  if headRev.isEmpty then []
  else if headRev.all (· = '/') then headRev.reverse
  else (headRev.dropWhile (· = '/')).reverse

/-- Model of the stem component of `os.path.splitext` (posix): split at the
last dot of the basename, provided some earlier character of the basename is
not a dot (so `.bashrc` and `..txt` are not split). -/
def splitextStem (p : PyStr) : PyStr :=
  let base := basename p
  let dir := p.take (p.length - base.length)
  let extRev := base.reverse.takeWhile (· ≠ '.')
  if extRev.length = base.length then p
  else
    let stem := base.take (base.length - extRev.length - 1)
    if stem.any (· ≠ '.') then dir ++ stem else p

/-! ## Python numeric literal parsing (`int(...)`, `float(...)`) -/

/-- Numeric value of an all-digit string (callers check digit-ness). -/
def natOfDigits (cs : List Char) : ℕ :=
  cs.foldl (fun a c => a * 10 + (c.toNat - 48)) 0

/-- Digit run parser: `some` value iff nonempty and all decimal digits. -/
def digitsVal? (cs : List Char) : Option ℕ :=
  if cs.isEmpty then none
  else if cs.all Char.isDigit then some (natOfDigits cs) else none

/-- Model of Python `int(s)` for a string argument: optional surrounding
whitespace, optional sign, nonempty digit run.  Any other input raises
`ValueError` in Python, modelled as `none`. -/
def pyInt? (s : PyStr) : Option ℤ :=
  match pyStrip s with
  | '-' :: rest => (digitsVal? rest).map (fun n => -(n : ℤ))
  | '+' :: rest => (digitsVal? rest).map (fun n => (n : ℤ))
  | cs => (digitsVal? cs).map (fun n => (n : ℤ))

/-- Magnitude of an unsigned decimal literal `digits [. digits]` (at least one
digit overall), as a numerator/denominator pair. -/
def pyFloatParts? (cs : List Char) : Option (ℕ × ℕ) :=
  let ip := cs.takeWhile (· ≠ '.')
  match cs.dropWhile (· ≠ '.') with
  | [] => (digitsVal? ip).map (fun n => (n, 1))
  | '.' :: fp =>
    if fp.contains '.' then none
    else if ip.isEmpty && fp.isEmpty then none
    else if ip.all Char.isDigit && fp.all Char.isDigit then
      some (natOfDigits ip * 10 ^ fp.length + natOfDigits fp, 10 ^ fp.length)
    else none
  | _ => none

/-- Model of Python `float(s)` restricted to plain decimal literals (the forms
the annotation files use); exponent/`inf`/`nan` forms are outside the modelled
input space.  Failure (`ValueError`) is `none`. -/
def pyFloat? (s : PyStr) : Option ℚ :=
  match pyStrip s with
  | '-' :: rest => (pyFloatParts? rest).map (fun p => mkRat (-(p.1 : ℤ)) p.2)
  | '+' :: rest => (pyFloatParts? rest).map (fun p => mkRat (p.1 : ℤ) p.2)
  | cs => (pyFloatParts? cs).map (fun p => mkRat (p.1 : ℤ) p.2)

/-! ## Executable rational arithmetic

`Rat.add`, `Rat.sub`, `Rat.mul`, `Rat.inv` are `@[irreducible]`, so concrete
computations are carried out with `mkRat`-based equivalents; bridge lemmas
below identify them with the field operations. -/

/-- Executable addition on `ℚ`. -/
def qAdd (a b : ℚ) : ℚ := mkRat (a.num * b.den + b.num * a.den) (a.den * b.den)

/-- Executable subtraction on `ℚ`. -/
def qSub (a b : ℚ) : ℚ := mkRat (a.num * b.den - b.num * a.den) (a.den * b.den)

/-- Executable division on `ℚ` (division by zero yields zero, as in Lean). -/
def qDiv (a b : ℚ) : ℚ :=
  mkRat (a.num * b.den * (if b.num < 0 then -1 else 1)) (a.den * b.num.natAbs)

/-- Executable embedding of `ℤ` into `ℚ`. -/
def qOfInt (n : ℤ) : ℚ := mkRat n 1

/-- The integer nearest `q * 10^6` (ties rounded up): the value carried by the
6-decimal formatting `f"{q:.6f}"`. -/
def iround6 (q : ℚ) : ℤ := (2000000 * q.num + q.den) / (2 * q.den)

/-- The rational value displayed by 6-decimal formatting of `q`. -/
def round6 (q : ℚ) : ℚ := mkRat (iround6 q) 1000000

/-- Decimal digits of a natural number. -/
def natDigits (n : ℕ) : PyStr := Nat.toDigits 10 n

/-- Model of `f"{q:.6f}"`: optional sign, integer part, point, zero-padded
6-digit fractional part. -/
def fmt6 (q : ℚ) : PyStr :=
  let n := iround6 q
  let m := n.natAbs
  let frac := natDigits (m % 1000000)
  (if n < 0 then ['-'] else []) ++ natDigits (m / 1000000) ++
    '.' :: (List.replicate (6 - frac.length) '0' ++ frac)

/-! ## Annotation documents (`xml.etree` view used by `convert_xml`)

A field that is `none` models a missing element or missing text, both of which
make the corresponding `.text` access raise in Python (caught by the
surrounding `try`). -/

/-- The `bndbox` element: the four edge-coordinate texts. -/
structure RawBox where
  xmin : Option PyStr
  xmax : Option PyStr
  ymin : Option PyStr
  ymax : Option PyStr

/-- An `object` element: `name` text and optional `bndbox`. -/
structure RawObject where
  name : Option PyStr
  bndbox : Option RawBox

/-- The `size` element: `width` and `height` texts. -/
structure RawSize where
  width : Option PyStr
  height : Option PyStr

/-- A successfully parsed annotation document. -/
structure RawDoc where
  size : Option RawSize
  objects : List RawObject

/-- Input to `convert_xml`: either `ET.parse` raised (malformed markup) or it
produced a document tree. -/
inductive ParseInput where
  | malformed : ParseInput
  | doc : RawDoc → ParseInput

/-- `int(element.text)` through an optional element: `none` is any exception. -/
def parseIntOpt (o : Option PyStr) : Option ℤ := o.bind pyInt?

/-- `float(element.text)` through an optional element: `none` is any exception. -/
def parseFloatOpt (o : Option PyStr) : Option ℚ := o.bind pyFloat?

/-- The tuple `bb` of `convert_xml` (line 86):
`((xmax+xmin)/2/w, (ymax+ymin)/2/h, (xmax-xmin)/w, (ymax-ymin)/h)`. -/
def normBox (w h : ℤ) (x1 x2 y1 y2 : ℚ) : ℚ × ℚ × ℚ × ℚ :=
  (qDiv (qDiv (qAdd x2 x1) (qOfInt 2)) (qOfInt w),
   qDiv (qDiv (qAdd y2 y1) (qOfInt 2)) (qOfInt h),
   qDiv (qSub x2 x1) (qOfInt w),
   qDiv (qSub y2 y1) (qOfInt h))

/-- One output line `f"{cls_id} {bb[0]:.6f} {bb[1]:.6f} {bb[2]:.6f} {bb[3]:.6f}"`. -/
def yoloLine (classes : List PyStr) (name : PyStr) (w h : ℤ) (x1 x2 y1 y2 : ℚ) : PyStr :=
  let bb := normBox w h x1 x2 y1 y2
  natDigits (List.indexOf name classes) ++ ' ' :: fmt6 bb.1 ++ ' ' :: fmt6 bb.2.1 ++
    ' ' :: fmt6 bb.2.2.1 ++ ' ' :: fmt6 bb.2.2.2

/-- The object loop of `convert_xml` (lines 74-88).  Returns the accumulated
lines and the `found_person` flag; `none` models an exception escaping the
loop body (missing `name`/`bndbox`/coordinate, non-numeric coordinate), which
the enclosing `try` of `convert_xml` turns into `[]`. -/
def processObjects (classes : List PyStr) (w h : ℤ) : List RawObject → Option (List PyStr × Bool)
  | [] => some ([], false)
  | o :: rest =>
    match o.name with
    | none => none
    | some nm =>
      let name := pyStrip (pyLower nm)
      if classes.contains name then
        match o.bndbox with
        | none => none
        | some b =>
          match parseFloatOpt b.xmin, parseFloatOpt b.xmax,
                parseFloatOpt b.ymin, parseFloatOpt b.ymax with
          | some x1, some x2, some y1, some y2 =>
            match processObjects classes w h rest with
            | none => none
            | some (ls, _) => some (yoloLine classes name w h x1 x2 y1 y2 :: ls, true)
          | _, _, _, _ => none
      else
        match processObjects classes w h rest with
        | none => none
        | some p => some p

/-- The body of `convert_xml` after a successful `ET.parse` (lines 65-90);
`none` models an uncaught-at-this-level exception. -/
def convert_core (classes : List PyStr) (d : RawDoc) : Option (List PyStr) :=
  match d.size with
  | none => some []
  | some sz =>
    match parseIntOpt sz.width, parseIntOpt sz.height with
    | some w, some h =>
      if w = 0 ∨ h = 0 then some []
      else
        match processObjects classes w h d.objects with
        | none => none
        | some (lines, found) => some (if found then lines else [])
    | _, _ => none

/-- `ScientificDataProcessor.convert_xml` (lines 60-92): the `try/except`
wrapper turns every failure into `[]`. -/
def convert_xml (classes : List PyStr) : ParseInput → List PyStr
  | .malformed => []
  | .doc d => (convert_core classes d).getD []

/-- `self.classes = ['person']` (line 14). -/
def defaultClasses : List PyStr := ["person".toList]

/-- `true` iff evaluating `convert_xml` on this input hits the `except` branch
(malformed markup, or a missing/non-numeric required field). -/
def parseFailed (classes : List PyStr) : ParseInput → Bool
  | .malformed => true
  | .doc d => (convert_core classes d).isNone

/-! ## Bit-exact model of the binary64 slicing bounds

`int(n * 0.7)` and `int(n * 0.85)` (lines 119-121) are evaluated by CPython in
IEEE-754 binary64: `n` is converted to the nearest double, multiplied by the
double constant (correctly rounded), and truncated.  Both roundings are
round-to-nearest, ties-to-even, at 53 significant bits. -/

/-- Fuel-driven bit length (structural, so it reduces in the kernel). -/
def bitlenAux : ℕ → ℕ → ℕ
  | 0, _ => 0
  | fuel + 1, n => if n = 0 then 0 else bitlenAux fuel (n / 2) + 1

/-- Number of bits of `n` (`0` for `0`). -/
def bitlen (n : ℕ) : ℕ := bitlenAux n n

/-- Round `a / 2^k` to the nearest integer, ties to even (`k ≥ 1` in use). -/
def roundHalfEven (a k : ℕ) : ℕ :=
  if a % 2 ^ k < 2 ^ (k - 1) then a / 2 ^ k
  else if 2 ^ (k - 1) < a % 2 ^ k then a / 2 ^ k + 1
  else if (a / 2 ^ k) % 2 = 0 then a / 2 ^ k else a / 2 ^ k + 1

/-- Correctly round a natural number to 53 significant bits (the rounding a
binary64 operation applies to an exact nonnegative integer result). -/
def roundSig53 (a : ℕ) : ℕ :=
  if bitlen a ≤ 53 then a
  else roundHalfEven a (bitlen a - 53) * 2 ^ (bitlen a - 53)

/-- Numerator of the double nearest `0.7`: `0.7 = c07num / 2^53` exactly. -/
def c07num : ℕ := 6305039478318694

/-- Numerator of the double nearest `0.85`: `0.85 = c085num / 2^53` exactly. -/
def c085num : ℕ := 7656119366529843

/-- `int(n * c)` where `c = cnum / 2^53` is a double constant in `(0, 1)` and
`n` is a nonnegative Python int: convert `n` to double, multiply (correctly
rounded), truncate toward zero. -/
def pyTruncMul (cnum n : ℕ) : ℕ := roundSig53 (cnum * roundSig53 n) / 2 ^ 53

/-! ## The seeded shuffle (`random.seed(42)`, `random.shuffle`)

The Mersenne-Twister generator lives in the Python standard library, outside
this repository; it is abstracted as an arbitrary deterministic generator with
the interface `random.shuffle` consumes.  Every theorem below holds for every
such generator. -/

/-- A deterministic pseudo-random generator: `seed` builds a state from an
integer, `randbelow s n` returns a draw (intended to lie in `[0, n)`) and the
advanced state. -/
structure PRNG (σ : Type) where
  seed : ℕ → σ
  randbelow : σ → ℕ → ℕ × σ

/-- Swap the elements at positions `i` and `j` (`x[i], x[j] = x[j], x[i]`);
indices produced by `_randbelow` are always in bounds, and out-of-bounds
indices leave the list unchanged. -/
def lswap {α : Type} (l : List α) (i j : ℕ) : List α :=
  if h : i < l.length ∧ j < l.length then
    (l.set i (l.get ⟨j, h.2⟩)).set j (l.get ⟨i, h.1⟩)
  else l

/-- The Fisher-Yates loop of `random.shuffle`:
`for i in reversed(range(1, len(x))): j = _randbelow(i + 1); swap x[i], x[j]`.
The first argument is the current index `i`. -/
def shuffleGo {σ α : Type} (P : PRNG σ) : ℕ → σ → List α → List α × σ
  | 0, g, l => (l, g)
  | i + 1, g, l =>
    let jg := P.randbelow g (i + 2)
    shuffleGo P i jg.2 (lswap l (i + 1) jg.1)

/-- `random.shuffle(l)` under generator state `g`. -/
def pyShuffle {σ α : Type} (P : PRNG σ) (g : σ) (l : List α) : List α × σ :=
  shuffleGo P (l.length - 1) g l

/-- Lines 114-122 of `prepare_data_split`: `random.seed(42)`,
`random.shuffle(images)`, then slice at `int(n*0.7)` and `int(n*0.85)` into
`(train, val, test)`.  The incoming generator state `g0` is the ambient state
of Python's global `random` module; `random.seed(42)` discards it. -/
def makeSplits {σ : Type} (P : PRNG σ) (g0 : σ) (images : List PyStr) :
    List PyStr × List PyStr × List PyStr :=
  let shuffled := (pyShuffle P (P.seed 42) images).1
  let n := shuffled.length
  let k1 := pyTruncMul c07num n
  let k2 := pyTruncMul c085num n
  (shuffled.take k1, (shuffled.drop k1).take (k2 - k1), shuffled.drop k2)

/-! ## Association-list models of the Python dicts -/

/-- `d[k] = v` on an insertion-ordered dict. -/
def updateAssoc {α : Type} (m : List (PyStr × α)) (k : PyStr) (v : α) : List (PyStr × α) :=
  if m.any (fun p => p.1 == k) then
    m.map (fun p => if p.1 == k then (p.1, v) else p)
  else m ++ [(k, v)]

/-- `d.get(k)` on an insertion-ordered dict. -/
def lookupAssoc {α : Type} (m : List (PyStr × α)) (k : PyStr) : Option α :=
  (m.find? (fun p => p.1 == k)).map (fun p => p.2)

/-- `d.setdefault(k, []).append(v)` on an insertion-ordered dict of lists. -/
def appendBuffer (m : List (PyStr × List PyStr)) (k : PyStr) (v : PyStr) :
    List (PyStr × List PyStr) :=
  if m.any (fun p => p.1 == k) then
    m.map (fun p => if p.1 == k then (p.1, p.2 ++ [v]) else p)
  else m ++ [(k, [v])]

/-! ## Annotation indexer (`_index_xml_files`, lines 19-37) -/

/-- Identifier derivation: strip the `.xml` extension from the basename; if an
image extension remains (case-insensitively), strip it too. -/
def xmlKey (path : PyStr) : PyStr :=
  let fn := splitextStem (basename path)
  if [".jpg", ".jpeg", ".png"].any (fun e => e.toList.isSuffixOf (pyLower fn)) then
    splitextStem fn
  else fn

/-- Build `self.xml_map` from the discovered annotation files (path paired
with its parse result); later files overwrite colliding identifiers. -/
def indexXmlFiles (files : List (PyStr × ParseInput)) : List (PyStr × ParseInput) :=
  files.foldl (fun m f => updateAssoc m (xmlKey f.1) f.2) []

/-! ## Category membership loader (`_load_styles_from_imagesets`, lines 39-58) -/

/-- The fatal errors `prepare_data_split` can raise: the uncaught `IndexError`
from `line.strip().split()[0]` on a token-less line, `FileNotFoundError`
("No images found"), and `RuntimeError` ("No valid Image+XML pairs found"). -/
inductive SplitError where
  | indexError : SplitError
  | noImagesFound : SplitError
  | noValidPairsFound : SplitError
deriving DecidableEq

/-- Base names (lower-cased) of membership files that are skipped. -/
def reservedNames : List PyStr :=
  ["train".toList, "test".toList, "val".toList, "trainval".toList]

/-- `line.strip().split()[0]`: `none` when the line has no token, which makes
the subscript raise `IndexError`. -/
def firstToken? (line : PyStr) : Option PyStr := (pySplitWs (pyStrip line)).head?

/-- Process one line of a membership file: `style_map[img_id] = style_name`. -/
def processLine (styleName : PyStr) (m : List (PyStr × PyStr)) (line : PyStr) :
    Except SplitError (List (PyStr × PyStr)) :=
  match firstToken? line with
  | none => .error .indexError
  | some tok => .ok (updateAssoc m tok styleName)

/-- Process one membership file (path and its lines); files named after a
split are skipped. -/
def processFile (m : List (PyStr × PyStr)) (f : PyStr × List PyStr) :
    Except SplitError (List (PyStr × PyStr)) :=
  let styleName := splitextStem (basename f.1)
  if reservedNames.contains (pyLower styleName) then .ok m
  else f.2.foldlM (processLine styleName) m

/-- `_load_styles_from_imagesets`: `none` models a missing `ImageSets`
directory (return `False` with an empty map); otherwise every text file is
processed in discovery order. -/
def loadStyles (imagesets : Option (List (PyStr × List PyStr))) :
    Except SplitError (Bool × List (PyStr × PyStr)) :=
  match imagesets with
  | none => .ok (false, [])
  | some files => (files.foldlM processFile []).map (fun m => (true, m))

/-- Some processed (non-reserved) membership file contains a line whose
stripped content has no whitespace-delimited token. -/
def hasTokenlessLine (files : List (PyStr × List PyStr)) : Bool :=
  files.any (fun f =>
    !(reservedNames.contains (pyLower (splitextStem (basename f.1)))) &&
      f.2.any (fun l => (firstToken? l).isNone))

/-! ## Split builder (`prepare_data_split`, lines 94-177) -/

/-- Directory names excluded by the parent-directory style fallback. -/
def styleBlocklist : List PyStr :=
  ["JPEGImages".toList, "images".toList, "train".toList, "val".toList, "test".toList]

/-- Mutable state threaded through the per-image loop. -/
structure LoopState where
  processed : ℕ
  statsTrain : ℕ
  statsVal : ℕ
  statsTest : ℕ
  buffers : List (PyStr × List PyStr)
  labelWrites : List (PyStr × PyStr × PyStr)
  copies : List (PyStr × PyStr)
deriving DecidableEq

/-- Initial loop state. -/
def initLoop : LoopState :=
  { processed := 0, statsTrain := 0, statsVal := 0, statsTest := 0,
    buffers := [], labelWrites := [], copies := [] }

/-- `config.DATASET_DIR` relative to the project root. -/
def datasetDir : PyStr := "datasets/PeopleArt_Replication".toList

/-- Destination path of a copied image inside the processed tree. -/
def destPathOf (split fname : PyStr) : PyStr :=
  datasetDir ++ "/images/".toList ++ split ++ '/' :: fname

/-- The body of the inner loop (lines 132-164) for one image of subset
`split`. -/
def processImage (xmlMap : List (PyStr × ParseInput)) (hasSets : Bool)
    (styleMap : List (PyStr × PyStr)) (split : PyStr) (st : LoopState)
    (imgPath : PyStr) : LoopState :=
  let fname := basename imgPath
  let fileId := splitextStem fname
  match lookupAssoc xmlMap fileId with
  | none => st
  | some xmlInput =>
    let labels := convert_xml defaultClasses xmlInput
    if labels.isEmpty then st
    else
      let dest := destPathOf split fname
      let st1 : LoopState :=
        { st with
          copies := st.copies ++ [(split, dest)],
          labelWrites := st.labelWrites ++
            [(split, fileId, List.intercalate ['\n'] labels)],
          statsTrain := st.statsTrain + (if split = "train".toList then 1 else 0),
          statsVal := st.statsVal + (if split = "val".toList then 1 else 0),
          statsTest := st.statsTest + (if split = "test".toList then 1 else 0),
          processed := st.processed + 1 }
      let style : PyStr :=
        if hasSets && (lookupAssoc styleMap fileId).isSome then
          (lookupAssoc styleMap fileId).getD "Unknown".toList
        else
          let pStyle := basename (dirname imgPath)
          if styleBlocklist.contains pStyle then "Unknown".toList else pStyle
      if split = "test".toList ∧ style ≠ "Unknown".toList then
        { st1 with buffers := appendBuffer st1.buffers style dest }
      else st1

/-- The outer loop over the three subsets (lines 128-164), in dict insertion
order `train`, `val`, `test`. -/
def processAll (xmlMap : List (PyStr × ParseInput)) (hasSets : Bool)
    (styleMap : List (PyStr × PyStr))
    (splits : List (PyStr × List PyStr)) : LoopState :=
  splits.foldl
    (fun st sp => sp.2.foldl (processImage xmlMap hasSets styleMap sp.1) st)
    initLoop

/-- Everything `prepare_data_split` does to the filesystem and its control
flow outcome. -/
structure RunOutput where
  err : Option SplitError
  train : List PyStr
  val : List PyStr
  test : List PyStr
  processed : ℕ
  statsTrain : ℕ
  statsVal : ℕ
  statsTest : ℕ
  labelWrites : List (PyStr × PyStr × PyStr)
  copies : List (PyStr × PyStr)
  styleBuffers : List (PyStr × List PyStr)
  styleWrites : List (PyStr × List PyStr)
  descriptorWritten : Bool
deriving DecidableEq

/-- Outcome of a run aborted before any image was processed. -/
def emptyRun (e : SplitError) : RunOutput :=
  { err := some e, train := [], val := [], test := [], processed := 0,
    statsTrain := 0, statsVal := 0, statsTest := 0, labelWrites := [],
    copies := [], styleBuffers := [], styleWrites := [],
    descriptorWritten := false }

/-- Lines 124-177: run the per-image loops over the three slices, write the
per-style lists with more than 5 members, raise `RuntimeError` when nothing
was copied, otherwise emit the dataset descriptor. -/
def finishRun (xmlMap : List (PyStr × ParseInput)) (hasSets : Bool)
    (styleMap : List (PyStr × PyStr))
    (splits : List PyStr × List PyStr × List PyStr) : RunOutput :=
  let st := processAll xmlMap hasSets styleMap
    [("train".toList, splits.1), ("val".toList, splits.2.1), ("test".toList, splits.2.2)]
  { err := if st.processed = 0 then some .noValidPairsFound else none,
    train := splits.1, val := splits.2.1, test := splits.2.2,
    processed := st.processed, statsTrain := st.statsTrain,
    statsVal := st.statsVal, statsTest := st.statsTest,
    labelWrites := st.labelWrites, copies := st.copies,
    styleBuffers := st.buffers,
    styleWrites := st.buffers.filter (fun p => decide (5 < p.2.length)),
    descriptorWritten := decide (st.processed ≠ 0) }

/-- `ScientificDataProcessor.prepare_data_split` (lines 94-177).  Inputs:
the discovered annotation files (path with parse result), the membership-list
files under `ImageSets` (or `none` when that directory is absent), the
discovered image paths in glob order, and the ambient generator state. -/
def prepare_data_split {σ : Type} (P : PRNG σ) (xmlFiles : List (PyStr × ParseInput))
    (imagesets : Option (List (PyStr × List PyStr))) (images : List PyStr)
    (g : σ) : RunOutput :=
  let xmlMap := indexXmlFiles xmlFiles
  match loadStyles imagesets with
  | .error e => emptyRun e
  | .ok hs =>
    if images = [] then emptyRun .noImagesFound
    else finishRun xmlMap hs.1 hs.2 (makeSplits P g images)

/-- A concrete generator used to instantiate the generator-polymorphic
theorems (a linear congruential step; any `PRNG` works for them). -/
def demoGen : PRNG ℕ :=
  { seed := fun s => s,
    randbelow := fun g n => (g % n, (g * 1103515245 + 12345) % 2147483648) }

/-! ## Claim-side definitions (for the C4 refinement statement and C10) -/

/-- Modelled from the claim wording of C4: for an object labelled (after
lower-casing and trimming) `person`, exactly one line
`"<class_index> <cx> <cy> <bw> <bh>"` with `cx = (xmin+xmax)/(2·w)`,
`cy = (ymin+ymax)/(2·h)`, `bw = (xmax-xmin)/w`, `bh = (ymax-ymin)/h`,
6-decimal formatted, class index `0`; for any other label, no line. -/
def personLine (w h : ℤ) (o : RawObject) : Option PyStr :=
  match o.name with
  | none => none
  | some nm =>
    if pyStrip (pyLower nm) = "person".toList then
      match o.bndbox with
      | none => none
      | some b =>
        match parseFloatOpt b.xmin, parseFloatOpt b.xmax,
              parseFloatOpt b.ymin, parseFloatOpt b.ymax with
        | some x1, some x2, some y1, some y2 =>
          some ('0' :: ' ' :: fmt6 (qDiv (qAdd x1 x2) (qOfInt (2 * w))) ++
            ' ' :: fmt6 (qDiv (qAdd y1 y2) (qOfInt (2 * h))) ++
            ' ' :: fmt6 (qDiv (qSub x2 x1) (qOfInt w)) ++
            ' ' :: fmt6 (qDiv (qSub y2 y1) (qOfInt h)))
        | _, _, _, _ => none
    else none

/-- The object's lower-cased, trimmed label is `person`. -/
def isPersonB (o : RawObject) : Bool :=
  match o.name with
  | none => false
  | some nm => decide (pyStrip (pyLower nm) = "person".toList)

/-- Per-object well-formedness for C4 ("parses successfully"): the `name`
text is present, and a person object carries a bndbox whose four coordinate
texts parse as floats. -/
def personWF (o : RawObject) : Bool :=
  match o.name with
  | none => false
  | some nm =>
    if pyStrip (pyLower nm) = "person".toList then
      match o.bndbox with
      | none => false
      | some b =>
        (parseFloatOpt b.xmin).isSome && (parseFloatOpt b.xmax).isSome &&
          (parseFloatOpt b.ymin).isSome && (parseFloatOpt b.ymax).isSome
    else true

/-- A two-object annotation (one person, one dog) used to instantiate the C4
theorem. -/
def exampleDocC4 : RawDoc :=
  { size := some { width := some "200".toList, height := some "100".toList },
    objects := [
      { name := some "Person ".toList,
        bndbox := some { xmin := some "20".toList, xmax := some "120".toList,
                         ymin := some "10".toList, ymax := some "60".toList } },
      { name := some "dog".toList, bndbox := none }] }

/-- An annotation with `width = 0` carrying a person object, used to
instantiate the C9 theorem. -/
def exampleDocZeroW : RawDoc :=
  { size := some { width := some "0".toList, height := some "100".toList },
    objects := [
      { name := some "person".toList,
        bndbox := some { xmin := some "10".toList, xmax := some "50".toList,
                         ymin := some "10".toList, ymax := some "90".toList } }] }

/-! ## Bridge lemmas: executable rational arithmetic vs field operations -/

/-- `qAdd` is addition. -/
theorem qAdd_eq (a b : ℚ) : qAdd a b = a + b := by
  have ha : ((a.den : ℚ)) ≠ 0 := Nat.cast_ne_zero.mpr a.den_nz
  have hb : ((b.den : ℚ)) ≠ 0 := Nat.cast_ne_zero.mpr b.den_nz
  unfold qAdd
  rw [Rat.mkRat_eq_div]
  push_cast
  conv_rhs => rw [← Rat.num_div_den a, ← Rat.num_div_den b]
  field_simp
  try ring

/-- `qSub` is subtraction. -/
theorem qSub_eq (a b : ℚ) : qSub a b = a - b := by
  have ha : ((a.den : ℚ)) ≠ 0 := Nat.cast_ne_zero.mpr a.den_nz
  have hb : ((b.den : ℚ)) ≠ 0 := Nat.cast_ne_zero.mpr b.den_nz
  unfold qSub
  rw [Rat.mkRat_eq_div]
  push_cast
  conv_rhs => rw [← Rat.num_div_den a, ← Rat.num_div_den b]
  field_simp
  try ring

/-- `qOfInt` is the integer cast. -/
theorem qOfInt_eq (n : ℤ) : qOfInt n = (n : ℚ) := by
  unfold qOfInt
  rw [Rat.mkRat_eq_div]
  simp

/-- `qDiv` is division. -/
theorem qDiv_eq (a b : ℚ) : qDiv a b = a / b := by
  have ha : ((a.den : ℚ)) ≠ 0 := Nat.cast_ne_zero.mpr a.den_nz
  have hbden : ((b.den : ℚ)) ≠ 0 := Nat.cast_ne_zero.mpr b.den_nz
  rcases lt_trichotomy b.num 0 with hb | hb | hb
  · have hbq : ((b.num : ℚ)) ≠ 0 := by exact_mod_cast Int.ne_of_lt hb
    have habs : ((b.num.natAbs : ℚ)) = -((b.num : ℚ)) := by
      rw [Int.cast_natAbs]
      exact_mod_cast abs_of_neg hb
    unfold qDiv
    rw [if_pos hb, Rat.mkRat_eq_div]
    push_cast
    rw [habs]
    conv_rhs => rw [← Rat.num_div_den a, ← Rat.num_div_den b]
    field_simp
    try ring
  · have hb0 : b = 0 := by
      have h := Rat.num_div_den b
      rw [hb] at h
      simpa using h.symm
    subst hb0
    unfold qDiv
    simp [Rat.mkRat_eq_div]
  · have hbq : ((b.num : ℚ)) ≠ 0 := by exact_mod_cast Int.ne_of_gt hb
    have habs : ((b.num.natAbs : ℚ)) = ((b.num : ℚ)) := by
      rw [Int.cast_natAbs]
      exact_mod_cast abs_of_pos hb
    unfold qDiv
    rw [if_neg (not_lt.mpr (le_of_lt hb)), Rat.mkRat_eq_div]
    push_cast
    rw [habs]
    conv_rhs => rw [← Rat.num_div_den a, ← Rat.num_div_den b]
    field_simp
    try ring

/-! ## Bounds for the 6-decimal rounding -/

/-- Upper bound: the rounded integer is at most `q * 10^6 + 1/2`. -/
theorem iround6_le (q : ℚ) : ((iround6 q : ℤ) : ℚ) ≤ q * 1000000 + 1 / 2 := by
  have hdpos : (0 : ℤ) < 2 * (q.den : ℤ) := by positivity
  have hmod := Int.ediv_add_emod (2000000 * q.num + q.den) (2 * (q.den : ℤ))
  have hr0 := Int.emod_nonneg (2000000 * q.num + q.den) (ne_of_gt hdpos)
  have hk : (2 * (q.den : ℤ)) * iround6 q ≤ 2000000 * q.num + q.den := by
    unfold iround6
    omega
  have hden : (0 : ℚ) < (q.den : ℚ) := by exact_mod_cast q.pos
  have hq : ((q.num : ℚ)) = q * q.den := by
    have h := Rat.num_div_den q
    rw [div_eq_iff (ne_of_gt hden)] at h
    exact h
  have hkq : (2 * (q.den : ℚ)) * ((iround6 q : ℤ) : ℚ) ≤ 2000000 * (q * q.den) + q.den := by
    rw [← hq]
    exact_mod_cast hk
  rw [← mul_le_mul_right (show (0:ℚ) < 2 * q.den by positivity)]
  ring_nf
  ring_nf at hkq
  linarith

/-- Lower bound: the rounded integer exceeds `q * 10^6 - 1/2`. -/
theorem lt_iround6 (q : ℚ) : q * 1000000 - 1 / 2 < ((iround6 q : ℤ) : ℚ) := by
  have hdpos : (0 : ℤ) < 2 * (q.den : ℤ) := by positivity
  have hmod := Int.ediv_add_emod (2000000 * q.num + q.den) (2 * (q.den : ℤ))
  have hrlt := Int.emod_lt_of_pos (2000000 * q.num + q.den) hdpos
  have hk : 2000000 * q.num + q.den < (2 * (q.den : ℤ)) * iround6 q + 2 * q.den := by
    unfold iround6
    omega
  have hden : (0 : ℚ) < (q.den : ℚ) := by exact_mod_cast q.pos
  have hq : ((q.num : ℚ)) = q * q.den := by
    have h := Rat.num_div_den q
    rw [div_eq_iff (ne_of_gt hden)] at h
    exact h
  have hkq : 2000000 * (q * q.den) + q.den <
      (2 * (q.den : ℚ)) * ((iround6 q : ℤ) : ℚ) + 2 * q.den := by
    rw [← hq]
    exact_mod_cast hk
  rw [← mul_lt_mul_right (show (0:ℚ) < 2 * q.den by positivity)]
  ring_nf
  ring_nf at hkq
  linarith

/-- `round6 q` as a quotient. -/
theorem round6_eq_div (q : ℚ) : round6 q = ((iround6 q : ℤ) : ℚ) / 1000000 := by
  unfold round6
  rw [Rat.mkRat_eq_div]
  norm_num

/-- The 6-decimal formatted value differs from the exact value by at most
half an ulp of the 6th decimal place. -/
theorem round6_err (q : ℚ) : |round6 q - q| ≤ 1 / 2000000 := by
  have h1 := iround6_le q
  have h2 := lt_iround6 q
  rw [round6_eq_div, abs_le]
  constructor
  · rw [div_sub' _ _ _ (by norm_num : (1000000:ℚ) ≠ 0)]
    rw [le_div_iff (by norm_num : (0:ℚ) < 1000000)]
    linarith
  · rw [div_sub' _ _ _ (by norm_num : (1000000:ℚ) ≠ 0)]
    rw [div_le_iff (by norm_num : (0:ℚ) < 1000000)]
    linarith

/-! ## Bounds for the binary64 slicing model -/

/-- `bitlenAux` of zero is zero. -/
theorem bitlenAux_zero (fuel : ℕ) : bitlenAux fuel 0 = 0 := by
  cases fuel <;> simp [bitlenAux]

/-- `bitlenAux` is positive on nonzero input. -/
theorem bitlenAux_pos (fuel n : ℕ) (hn : n ≠ 0) (h : n ≤ fuel) :
    1 ≤ bitlenAux fuel n := by
  cases fuel with
  | zero => omega
  | succ fuel => simp [bitlenAux, hn]

/-- `n` has fewer than `bitlenAux fuel n` bits (with enough fuel). -/
theorem bitlenAux_lt (fuel : ℕ) : ∀ n : ℕ, n ≤ fuel → n < 2 ^ bitlenAux fuel n := by
  induction fuel with
  | zero => intro n h; interval_cases n; simp [bitlenAux]
  | succ fuel ih =>
    intro n h
    by_cases hn : n = 0
    · simp [bitlenAux, hn]
    · have hrec : n / 2 ≤ fuel := by omega
      have hb := ih (n / 2) hrec
      have hpow : 2 ^ (bitlenAux fuel (n / 2) + 1) = 2 * 2 ^ bitlenAux fuel (n / 2) := by
        rw [pow_succ]; ring
      simp only [bitlenAux, hn, if_false]
      omega

/-- The leading bit of `n` is at position `bitlenAux fuel n - 1`. -/
theorem bitlenAux_le (fuel : ℕ) : ∀ n : ℕ, n ≤ fuel → n ≠ 0 →
    2 ^ (bitlenAux fuel n - 1) ≤ n := by
  induction fuel with
  | zero => intro n h hn; omega
  | succ fuel ih =>
    intro n h hn
    simp only [bitlenAux, hn, if_false]
    by_cases hn2 : n / 2 = 0
    · rw [hn2, bitlenAux_zero]
      simpa using Nat.one_le_iff_ne_zero.mpr hn
    · have hrec : n / 2 ≤ fuel := by omega
      have hb := ih (n / 2) hrec hn2
      have hpos := bitlenAux_pos fuel (n / 2) hn2 hrec
      have hpow : 2 ^ (bitlenAux fuel (n / 2) + 1 - 1) =
          2 * 2 ^ (bitlenAux fuel (n / 2) - 1) := by
        have he : bitlenAux fuel (n / 2) + 1 - 1 = (bitlenAux fuel (n / 2) - 1) + 1 := by omega
        rw [he, pow_succ]; ring
      omega

/-- `n < 2 ^ bitlen n`. -/
theorem bitlen_lt (n : ℕ) : n < 2 ^ bitlen n := bitlenAux_lt n n le_rfl

/-- `2 ^ (bitlen n - 1) ≤ n` for nonzero `n`. -/
theorem bitlen_le (n : ℕ) (hn : n ≠ 0) : 2 ^ (bitlen n - 1) ≤ n :=
  bitlenAux_le n n le_rfl hn

/-- Rounding `a / 2^k` to an integer moves the value up by at most half of `2^k`. -/
theorem roundHalfEven_mul_le (a k : ℕ) (hk : 1 ≤ k) :
    roundHalfEven a k * 2 ^ k ≤ a + 2 ^ (k - 1) := by
  have hX : a / 2 ^ k * 2 ^ k + a % 2 ^ k = a := by
    rw [mul_comm]; exact Nat.div_add_mod a (2 ^ k)
  have hmlt : a % 2 ^ k < 2 ^ k := Nat.mod_lt _ (by positivity)
  have hP : 2 ^ k = 2 * 2 ^ (k - 1) := by
    have he : k = (k - 1) + 1 := by omega
    conv_lhs => rw [he]
    rw [pow_succ, mul_comm]
  unfold roundHalfEven
  split_ifs with h1 h2 h3
  · omega
  · rw [add_mul, one_mul]; omega
  · omega
  · rw [add_mul, one_mul]; omega

/-- Rounding `a / 2^k` to an integer moves the value down by at most half of `2^k`. -/
theorem le_roundHalfEven_mul (a k : ℕ) (hk : 1 ≤ k) :
    a ≤ roundHalfEven a k * 2 ^ k + 2 ^ (k - 1) := by
  have hX : a / 2 ^ k * 2 ^ k + a % 2 ^ k = a := by
    rw [mul_comm]; exact Nat.div_add_mod a (2 ^ k)
  have hmlt : a % 2 ^ k < 2 ^ k := Nat.mod_lt _ (by positivity)
  have hP : 2 ^ k = 2 * 2 ^ (k - 1) := by
    have he : k = (k - 1) + 1 := by omega
    conv_lhs => rw [he]
    rw [pow_succ, mul_comm]
  unfold roundHalfEven
  split_ifs with h1 h2 h3
  · omega
  · rw [add_mul, one_mul]; omega
  · omega
  · rw [add_mul, one_mul]; omega

/-- Relative error of 53-bit rounding, upper side:
`roundSig53 a ≤ a * (1 + 2^-53)` after clearing denominators. -/
theorem roundSig53_mul_le (a : ℕ) : roundSig53 a * 2 ^ 53 ≤ a * 2 ^ 53 + a := by
  unfold roundSig53
  split_ifs with h
  · exact Nat.le_add_right _ _
  · have hbl : 54 ≤ bitlen a := by omega
    have ha0 : a ≠ 0 := by
      intro h0
      rw [h0] at hbl
      simp [bitlen, bitlenAux] at hbl
    have he : 1 ≤ bitlen a - 53 := by omega
    have h1 := roundHalfEven_mul_le a (bitlen a - 53) he
    have hmul : roundHalfEven a (bitlen a - 53) * 2 ^ (bitlen a - 53) * 2 ^ 53 ≤
        (a + 2 ^ (bitlen a - 53 - 1)) * 2 ^ 53 := Nat.mul_le_mul_right _ h1
    have hexp : (a + 2 ^ (bitlen a - 53 - 1)) * 2 ^ 53 =
        a * 2 ^ 53 + 2 ^ (bitlen a - 53 - 1) * 2 ^ 53 := by ring
    have h2 : 2 ^ (bitlen a - 53 - 1) * 2 ^ 53 = 2 ^ (bitlen a - 1) := by
      rw [← pow_add]; congr 1; omega
    have h3 : 2 ^ (bitlen a - 1) ≤ a := bitlen_le a ha0
    omega

/-- Relative error of 53-bit rounding, lower side. -/
theorem le_roundSig53_mul (a : ℕ) : a * 2 ^ 53 ≤ roundSig53 a * 2 ^ 53 + a := by
  unfold roundSig53
  split_ifs with h
  · exact Nat.le_add_right _ _
  · have hbl : 54 ≤ bitlen a := by omega
    have ha0 : a ≠ 0 := by
      intro h0
      rw [h0] at hbl
      simp [bitlen, bitlenAux] at hbl
    have he : 1 ≤ bitlen a - 53 := by omega
    have h1 := le_roundHalfEven_mul a (bitlen a - 53) he
    have hmul : a * 2 ^ 53 ≤
        (roundHalfEven a (bitlen a - 53) * 2 ^ (bitlen a - 53) + 2 ^ (bitlen a - 53 - 1)) *
          2 ^ 53 := Nat.mul_le_mul_right _ h1
    have hexp : (roundHalfEven a (bitlen a - 53) * 2 ^ (bitlen a - 53) +
        2 ^ (bitlen a - 53 - 1)) * 2 ^ 53 =
        roundHalfEven a (bitlen a - 53) * 2 ^ (bitlen a - 53) * 2 ^ 53 +
          2 ^ (bitlen a - 53 - 1) * 2 ^ 53 := by ring
    have h2 : 2 ^ (bitlen a - 53 - 1) * 2 ^ 53 = 2 ^ (bitlen a - 1) := by
      rw [← pow_add]; congr 1; omega
    have h3 : 2 ^ (bitlen a - 1) ≤ a := bitlen_le a ha0
    omega

/-- The train cut never exceeds the validation cut:
`int(n * 0.7) ≤ int(n * 0.85)` for every image count `n`. -/
theorem pyTruncMul_cut_mono (n : ℕ) : pyTruncMul c07num n ≤ pyTruncMul c085num n := by
  unfold pyTruncMul
  apply Nat.div_le_div_right
  apply Nat.le_of_mul_le_mul_right (c := 2 ^ 53) _ (by positivity)
  have h1 := roundSig53_mul_le (c07num * roundSig53 n)
  have h2 := le_roundSig53_mul (c085num * roundSig53 n)
  have h3 : c07num * roundSig53 n * 2 ^ 53 + c07num * roundSig53 n +
      c085num * roundSig53 n ≤ c085num * roundSig53 n * 2 ^ 53 := by
    have hc : c07num * 2 ^ 53 + c07num + c085num ≤ c085num * 2 ^ 53 := by decide
    calc c07num * roundSig53 n * 2 ^ 53 + c07num * roundSig53 n + c085num * roundSig53 n
        = (c07num * 2 ^ 53 + c07num + c085num) * roundSig53 n := by ring
      _ ≤ (c085num * 2 ^ 53) * roundSig53 n := Nat.mul_le_mul_right _ hc
      _ = c085num * roundSig53 n * 2 ^ 53 := by ring
  omega

/-- The test cut never exceeds the list length: `int(n * 0.85) ≤ n`. -/
theorem pyTruncMul_le_self (n : ℕ) : pyTruncMul c085num n ≤ n := by
  unfold pyTruncMul
  have key : roundSig53 (c085num * roundSig53 n) ≤ n * 2 ^ 53 := by
    apply Nat.le_of_mul_le_mul_right (c := 2 ^ 106) _ (by positivity)
    have h1 := roundSig53_mul_le (c085num * roundSig53 n)
    have h2 := roundSig53_mul_le n
    have step1 : roundSig53 (c085num * roundSig53 n) * 2 ^ 106 ≤
        (c085num * roundSig53 n * 2 ^ 53 + c085num * roundSig53 n) * 2 ^ 53 := by
      calc roundSig53 (c085num * roundSig53 n) * 2 ^ 106
          = (roundSig53 (c085num * roundSig53 n) * 2 ^ 53) * 2 ^ 53 := by ring
        _ ≤ (c085num * roundSig53 n * 2 ^ 53 + c085num * roundSig53 n) * 2 ^ 53 :=
            Nat.mul_le_mul_right _ h1
    have step2 : (c085num * roundSig53 n * 2 ^ 53 + c085num * roundSig53 n) * 2 ^ 53 =
        (c085num * (2 ^ 53 + 1)) * (roundSig53 n * 2 ^ 53) := by ring
    have step3 : (c085num * (2 ^ 53 + 1)) * (roundSig53 n * 2 ^ 53) ≤
        (c085num * (2 ^ 53 + 1)) * (n * 2 ^ 53 + n) := Nat.mul_le_mul_left _ h2
    have step4 : (c085num * (2 ^ 53 + 1)) * (n * 2 ^ 53 + n) =
        (c085num * (2 ^ 53 + 1) * (2 ^ 53 + 1)) * n := by ring
    have hc : c085num * (2 ^ 53 + 1) * (2 ^ 53 + 1) ≤ 2 ^ 159 := by decide
    have step5 : (c085num * (2 ^ 53 + 1) * (2 ^ 53 + 1)) * n ≤ 2 ^ 159 * n :=
      Nat.mul_le_mul_right _ hc
    have step6 : 2 ^ 159 * n = (n * 2 ^ 53) * 2 ^ 106 := by ring
    omega
  calc roundSig53 (c085num * roundSig53 n) / 2 ^ 53 ≤ (n * 2 ^ 53) / 2 ^ 53 :=
        Nat.div_le_div_right key
    _ = n := Nat.mul_div_cancel n (by positivity)

/-! ## The shuffle permutes, and the slices partition -/

/-- Moving the `m`-th element to the front while writing `a` in its place is a
permutation of putting `a` in front. -/
theorem cons_set_perm {α : Type} (t : List α) (m : ℕ) (hm : m < t.length) (a : α) :
    List.Perm (t.get ⟨m, hm⟩ :: t.set m a) (a :: t) := by
  induction t generalizing m with
  | nil => simp at hm
  | cons b t ih =>
    cases m with
    | zero => simpa [List.set] using List.Perm.swap a b t
    | succ k =>
      have hk : k < t.length := by simpa using hm
      have h1 : List.Perm (t.get ⟨k, hk⟩ :: b :: t.set k a)
          (b :: t.get ⟨k, hk⟩ :: t.set k a) := List.Perm.swap b (t.get ⟨k, hk⟩) _
      have h2 : List.Perm (b :: t.get ⟨k, hk⟩ :: t.set k a) (b :: a :: t) :=
        (ih k hk).cons b
      have h3 : List.Perm (b :: a :: t) (a :: b :: t) := List.Perm.swap a b t
      simpa [List.set] using (h1.trans (h2.trans h3))

/-- The transposition of positions `i` and `j` is a permutation. -/
theorem set_set_swap_perm {α : Type} (l : List α) (i j : ℕ) (hi : i < l.length)
    (hj : j < l.length) :
    List.Perm ((l.set i (l.get ⟨j, hj⟩)).set j (l.get ⟨i, hi⟩)) l := by
  induction l generalizing i j with
  | nil => simp at hi
  | cons a t ih =>
    cases i with
    | zero =>
      cases j with
      | zero => simp [List.set]
      | succ m =>
        have hmt : m < t.length := by simpa using hj
        simpa [List.set] using cons_set_perm t m hmt a
    | succ k =>
      cases j with
      | zero =>
        have hkt : k < t.length := by simpa using hi
        simpa [List.set] using cons_set_perm t k hkt a
      | succ m =>
        have hkt : k < t.length := by simpa using hi
        have hmt : m < t.length := by simpa using hj
        simpa [List.set] using (ih k m hkt hmt).cons a

/-- `lswap` is a permutation. -/
theorem lswap_perm {α : Type} (l : List α) (i j : ℕ) : List.Perm (lswap l i j) l := by
  unfold lswap
  split_ifs with h
  · exact set_set_swap_perm l i j h.1 h.2
  · exact List.Perm.refl l

/-- The Fisher-Yates loop is a permutation, for every generator. -/
theorem shuffleGo_perm {σ α : Type} (P : PRNG σ) :
    ∀ (i : ℕ) (g : σ) (l : List α), List.Perm (shuffleGo P i g l).1 l := by
  intro i
  induction i with
  | zero => intro g l; exact List.Perm.refl l
  | succ i ih =>
    intro g l
    simp only [shuffleGo]
    exact (ih _ _).trans (lswap_perm l (i + 1) (P.randbelow g (i + 2)).1)

/-- `random.shuffle` permutes its input, for every generator. -/
theorem pyShuffle_perm {σ α : Type} (P : PRNG σ) (g : σ) (l : List α) :
    List.Perm (pyShuffle P g l).1 l :=
  shuffleGo_perm P (l.length - 1) g l

/-- The shuffle preserves length. -/
theorem pyShuffle_length {σ α : Type} (P : PRNG σ) (g : σ) (l : List α) :
    (pyShuffle P g l).1.length = l.length :=
  (pyShuffle_perm P g l).length_eq

/-- The three slices concatenate back to the shuffled list. -/
theorem makeSplits_concat {σ : Type} (P : PRNG σ) (g : σ) (images : List PyStr) :
    (makeSplits P g images).1 ++ (makeSplits P g images).2.1 ++ (makeSplits P g images).2.2 =
      (pyShuffle P (P.seed 42) images).1 := by
  simp only [makeSplits]
  have hk12 : pyTruncMul c07num (pyShuffle P (P.seed 42) images).1.length ≤
      pyTruncMul c085num (pyShuffle P (P.seed 42) images).1.length :=
    pyTruncMul_cut_mono _
  have h3 : ((pyShuffle P (P.seed 42) images).1.drop
        (pyTruncMul c07num (pyShuffle P (P.seed 42) images).1.length)).drop
        (pyTruncMul c085num (pyShuffle P (P.seed 42) images).1.length -
          pyTruncMul c07num (pyShuffle P (P.seed 42) images).1.length) =
      (pyShuffle P (P.seed 42) images).1.drop
        (pyTruncMul c085num (pyShuffle P (P.seed 42) images).1.length) := by
    rw [List.drop_drop]
    congr 1
    omega
  rw [List.append_assoc, ← h3, List.take_append_drop, List.take_append_drop]

/-- The three slices are a permutation of the discovered images. -/
theorem makeSplits_perm {σ : Type} (P : PRNG σ) (g : σ) (images : List PyStr) :
    List.Perm
      ((makeSplits P g images).1 ++ (makeSplits P g images).2.1 ++ (makeSplits P g images).2.2)
      images := by
  rw [makeSplits_concat]
  exact pyShuffle_perm P (P.seed 42) images

/-! ## Claim C2 -/

/-- C2 (amended): the slice sizes of `prepare_data_split` are
`|train| = int(N·0.7)`, `|val| = int(N·0.85) - int(N·0.7)`,
`|test| = N - int(N·0.85)`, where `int(N·c)` is the truncation of the product
computed in binary64 arithmetic (`pyTruncMul`); for some `N` (e.g. `N = 90`)
this differs from the exact floor `⌊0.70·N⌋` of the original claim. -/
theorem split_sizes_binary64 {σ : Type} (P : PRNG σ) (g : σ) (images : List PyStr) :
    (makeSplits P g images).1.length = pyTruncMul c07num images.length ∧
    (makeSplits P g images).2.1.length =
      pyTruncMul c085num images.length - pyTruncMul c07num images.length ∧
    (makeSplits P g images).2.2.length = images.length - pyTruncMul c085num images.length := by
  have hlen := pyShuffle_length P (P.seed 42) images
  have hk12 := pyTruncMul_cut_mono images.length
  have hk2 := pyTruncMul_le_self images.length
  simp only [makeSplits, hlen]
  refine ⟨?_, ?_, ?_⟩
  · rw [List.length_take, hlen]
    omega
  · rw [List.length_take, List.length_drop, hlen]
    omega
  · rw [List.length_drop, hlen]

set_option maxRecDepth 10000 in
/-- C2 counterexample: for `N = 90` discovered images the code produces a
train slice of `int(90 * 0.7) = 62` elements, while the exact floor of the
claim is `⌊0.70 · 90⌋ = 63`. -/
theorem split_sizes_counterexample_90 :
    (makeSplits demoGen 0 (List.replicate 90 ['a'])).1.length = 62 ∧
    ⌊(70 : ℚ) / 100 * 90⌋ = 63 ∧ (62 : ℤ) ≠ 63 := by
  refine ⟨by decide, by norm_num, by decide⟩

/-! ## Claim C3 -/

/-- C3 (confirmed): `prepare_data_split` re-seeds the generator with the
constant 42 before shuffling, so two runs from arbitrary ambient generator
states `g1`, `g2` produce identical outputs — the same train/val/test
membership and identical label-file writes (all fields of `RunOutput`,
including `labelWrites`, coincide). -/
theorem prepare_data_split_deterministic {σ : Type} (P : PRNG σ)
    (xmlFiles : List (PyStr × ParseInput))
    (imagesets : Option (List (PyStr × List PyStr))) (images : List PyStr)
    (g1 g2 : σ) :
    prepare_data_split P xmlFiles imagesets images g1 =
      prepare_data_split P xmlFiles imagesets images g2 := rfl

/-! ## Claim C7 -/

/-- C7 (amended): the three slices cover the discovered image list, and under
the additional hypothesis that the discovered list has no duplicates they are
pairwise disjoint, so every discovered image belongs to exactly one subset.
(The original claim, without the no-duplicate hypothesis, is refuted by
`split_duplicate_in_two_subsets`.) -/
theorem split_partition_amended {σ : Type} (P : PRNG σ) (g : σ) (images : List PyStr) :
    (∀ x : PyStr, x ∈ images ↔
      (x ∈ (makeSplits P g images).1 ∨ x ∈ (makeSplits P g images).2.1 ∨
        x ∈ (makeSplits P g images).2.2)) ∧
    (images.Nodup →
      (makeSplits P g images).1.Disjoint (makeSplits P g images).2.1 ∧
      (makeSplits P g images).1.Disjoint (makeSplits P g images).2.2 ∧
      (makeSplits P g images).2.1.Disjoint (makeSplits P g images).2.2) := by
  have hperm := makeSplits_perm P g images
  constructor
  · intro x
    rw [← hperm.mem_iff]
    simp [List.mem_append, or_assoc]
  · intro hnd
    have hndc : ((makeSplits P g images).1 ++ (makeSplits P g images).2.1 ++
        (makeSplits P g images).2.2).Nodup := hperm.nodup_iff.mpr hnd
    rcases List.nodup_append.mp hndc with ⟨hAB, _hC, hdisABC⟩
    rcases List.nodup_append.mp hAB with ⟨_hA, _hB, hAB2⟩
    rcases List.disjoint_append_left.mp hdisABC with ⟨hAC, hBC⟩
    exact ⟨hAB2, hAC, hBC⟩

/-- Witness for `split_partition_amended` at a concrete duplicate-free list. -/
theorem split_partition_amended_witness :
    (makeSplits demoGen 0 ["a".toList, "b".toList]).1.Disjoint
      (makeSplits demoGen 0 ["a".toList, "b".toList]).2.1 ∧
    (makeSplits demoGen 0 ["a".toList, "b".toList]).1.Disjoint
      (makeSplits demoGen 0 ["a".toList, "b".toList]).2.2 ∧
    (makeSplits demoGen 0 ["a".toList, "b".toList]).2.1.Disjoint
      (makeSplits demoGen 0 ["a".toList, "b".toList]).2.2 :=
  (split_partition_amended demoGen 0 ["a".toList, "b".toList]).2 (by decide)

/-- C7 counterexample: when the discovery globs return the same file twice
(the two case-variant globs on a case-insensitive filesystem), that image
lands in both the train and the test subset. -/
theorem split_duplicate_in_two_subsets :
    "a.jpg".toList ∈ (makeSplits demoGen 0 ["a.jpg".toList, "a.jpg".toList]).1 ∧
    "a.jpg".toList ∈ (makeSplits demoGen 0 ["a.jpg".toList, "a.jpg".toList]).2.2 :=
  ⟨by decide, by decide⟩

/-! ## Claim C1 -/

/-- Denormalizing the 6-decimal values recovers the lower box edge to within
formatting error. -/
theorem roundtrip_aux_sub (c b t W : ℚ) (hW : 0 < W) (hexact : (c - b / 2) * W = t) :
    |(round6 c - round6 b / 2) * W - t| ≤ 3 * W / 4000000 := by
  have e1 := round6_err c
  have e2 := round6_err b
  have hkey : (round6 c - round6 b / 2) * W - t =
      ((round6 c - c) - (round6 b - b) / 2) * W := by
    rw [← hexact]; ring
  rw [hkey, abs_mul, abs_of_pos hW]
  have h1 : |(round6 c - c) - (round6 b - b) / 2| ≤ 1 / 2000000 + 1 / 2000000 / 2 := by
    calc |(round6 c - c) - (round6 b - b) / 2|
        ≤ |round6 c - c| + |(round6 b - b) / 2| := abs_sub _ _
      _ = |round6 c - c| + |round6 b - b| / 2 := by
          rw [abs_div]
          norm_num
      _ ≤ 1 / 2000000 + 1 / 2000000 / 2 := by
          apply add_le_add e1
          linarith
  calc |(round6 c - c) - (round6 b - b) / 2| * W ≤ (1 / 2000000 + 1 / 2000000 / 2) * W :=
        mul_le_mul_of_nonneg_right h1 (le_of_lt hW)
    _ = 3 * W / 4000000 := by ring

/-- Denormalizing the 6-decimal values recovers the upper box edge to within
formatting error. -/
theorem roundtrip_aux_add (c b t W : ℚ) (hW : 0 < W) (hexact : (c + b / 2) * W = t) :
    |(round6 c + round6 b / 2) * W - t| ≤ 3 * W / 4000000 := by
  have e1 := round6_err c
  have e2 := round6_err b
  have hkey : (round6 c + round6 b / 2) * W - t =
      ((round6 c - c) + (round6 b - b) / 2) * W := by
    rw [← hexact]; ring
  rw [hkey, abs_mul, abs_of_pos hW]
  have h1 : |(round6 c - c) + (round6 b - b) / 2| ≤ 1 / 2000000 + 1 / 2000000 / 2 := by
    calc |(round6 c - c) + (round6 b - b) / 2|
        ≤ |round6 c - c| + |(round6 b - b) / 2| := abs_add _ _
      _ = |round6 c - c| + |round6 b - b| / 2 := by
          rw [abs_div]
          norm_num
      _ ≤ 1 / 2000000 + 1 / 2000000 / 2 := by
          apply add_le_add e1
          linarith
  calc |(round6 c - c) + (round6 b - b) / 2| * W ≤ (1 / 2000000 + 1 / 2000000 / 2) * W :=
        mul_le_mul_of_nonneg_right h1 (le_of_lt hW)
    _ = 3 * W / 4000000 := by ring

/-- C1 (amended): for a person box whose edges lie inside the image
(`0 ≤ xmin ≤ xmax ≤ w`, `0 ≤ ymin ≤ ymax ≤ h`, the hypotheses the
original claim omits), all four components of the quadruple `convert_xml`
formats into the emitted line lie in `[0,1]`, and denormalizing the
6-decimal rounded values with the same `w`/`h` recovers each original pixel
edge to within `3·w/4·10^-6` (resp. `3·h/4·10^-6`), the accumulated rounding
error of the 6-decimal formatting.  Without the in-range hypotheses the
claim fails (`convert_out_of_range_counterexample`). -/
theorem convert_box_unit_roundtrip (w h : ℤ) (x1 x2 y1 y2 : ℚ)
    (hw : 0 < w) (hh : 0 < h) (hx0 : 0 ≤ x1) (hx12 : x1 ≤ x2) (hx2w : x2 ≤ (w : ℚ))
    (hy0 : 0 ≤ y1) (hy12 : y1 ≤ y2) (hy2h : y2 ≤ (h : ℚ)) :
    ((0 ≤ (normBox w h x1 x2 y1 y2).1 ∧ (normBox w h x1 x2 y1 y2).1 ≤ 1) ∧
     (0 ≤ (normBox w h x1 x2 y1 y2).2.1 ∧ (normBox w h x1 x2 y1 y2).2.1 ≤ 1) ∧
     (0 ≤ (normBox w h x1 x2 y1 y2).2.2.1 ∧ (normBox w h x1 x2 y1 y2).2.2.1 ≤ 1) ∧
     (0 ≤ (normBox w h x1 x2 y1 y2).2.2.2 ∧ (normBox w h x1 x2 y1 y2).2.2.2 ≤ 1)) ∧
    (|(round6 (normBox w h x1 x2 y1 y2).1 - round6 (normBox w h x1 x2 y1 y2).2.2.1 / 2) *
        (w : ℚ) - x1| ≤ 3 * (w : ℚ) / 4000000 ∧
     |(round6 (normBox w h x1 x2 y1 y2).1 + round6 (normBox w h x1 x2 y1 y2).2.2.1 / 2) *
        (w : ℚ) - x2| ≤ 3 * (w : ℚ) / 4000000 ∧
     |(round6 (normBox w h x1 x2 y1 y2).2.1 - round6 (normBox w h x1 x2 y1 y2).2.2.2 / 2) *
        (h : ℚ) - y1| ≤ 3 * (h : ℚ) / 4000000 ∧
     |(round6 (normBox w h x1 x2 y1 y2).2.1 + round6 (normBox w h x1 x2 y1 y2).2.2.2 / 2) *
        (h : ℚ) - y2| ≤ 3 * (h : ℚ) / 4000000) := by
  have hwq : (0 : ℚ) < (w : ℚ) := by exact_mod_cast hw
  have hhq : (0 : ℚ) < (h : ℚ) := by exact_mod_cast hh
  have hwne : ((w : ℚ)) ≠ 0 := ne_of_gt hwq
  have hhne : ((h : ℚ)) ≠ 0 := ne_of_gt hhq
  have hcx : (normBox w h x1 x2 y1 y2).1 = (x2 + x1) / 2 / (w : ℚ) := by
    simp [normBox, qAdd_eq, qDiv_eq, qOfInt_eq]
  have hcy : (normBox w h x1 x2 y1 y2).2.1 = (y2 + y1) / 2 / (h : ℚ) := by
    simp [normBox, qAdd_eq, qDiv_eq, qOfInt_eq]
  have hbw : (normBox w h x1 x2 y1 y2).2.2.1 = (x2 - x1) / (w : ℚ) := by
    simp [normBox, qSub_eq, qDiv_eq, qOfInt_eq]
  have hbh : (normBox w h x1 x2 y1 y2).2.2.2 = (y2 - y1) / (h : ℚ) := by
    simp [normBox, qSub_eq, qDiv_eq, qOfInt_eq]
  rw [hcx, hcy, hbw, hbh]
  constructor
  · refine ⟨⟨?_, ?_⟩, ⟨?_, ?_⟩, ⟨?_, ?_⟩, ⟨?_, ?_⟩⟩
    · exact div_nonneg (div_nonneg (by linarith) (by norm_num)) (le_of_lt hwq)
    · rw [div_le_one hwq]; linarith
    · exact div_nonneg (div_nonneg (by linarith) (by norm_num)) (le_of_lt hhq)
    · rw [div_le_one hhq]; linarith
    · exact div_nonneg (by linarith) (le_of_lt hwq)
    · rw [div_le_one hwq]; linarith
    · exact div_nonneg (by linarith) (le_of_lt hhq)
    · rw [div_le_one hhq]; linarith
  · refine ⟨?_, ?_, ?_, ?_⟩
    · exact roundtrip_aux_sub _ _ _ _ hwq (by field_simp; ring)
    · exact roundtrip_aux_add _ _ _ _ hwq (by field_simp; ring)
    · exact roundtrip_aux_sub _ _ _ _ hhq (by field_simp; ring)
    · exact roundtrip_aux_add _ _ _ _ hhq (by field_simp; ring)

/-- Witness for `convert_box_unit_roundtrip` at the box `(10,50,10,90)` on a
`100 × 100` image. -/
theorem convert_box_unit_roundtrip_witness :
    (0 : ℤ) < 100 ∧ (0 : ℚ) ≤ 10 ∧ (10 : ℚ) ≤ 50 ∧ (50 : ℚ) ≤ ((100 : ℤ) : ℚ) ∧
    (((0 ≤ (normBox 100 100 10 50 10 90).1 ∧ (normBox 100 100 10 50 10 90).1 ≤ 1) ∧
      (0 ≤ (normBox 100 100 10 50 10 90).2.1 ∧ (normBox 100 100 10 50 10 90).2.1 ≤ 1) ∧
      (0 ≤ (normBox 100 100 10 50 10 90).2.2.1 ∧ (normBox 100 100 10 50 10 90).2.2.1 ≤ 1) ∧
      (0 ≤ (normBox 100 100 10 50 10 90).2.2.2 ∧ (normBox 100 100 10 50 10 90).2.2.2 ≤ 1)) ∧
     (|(round6 (normBox 100 100 10 50 10 90).1 -
          round6 (normBox 100 100 10 50 10 90).2.2.1 / 2) * ((100 : ℤ) : ℚ) - 10| ≤
        3 * ((100 : ℤ) : ℚ) / 4000000 ∧
      |(round6 (normBox 100 100 10 50 10 90).1 +
          round6 (normBox 100 100 10 50 10 90).2.2.1 / 2) * ((100 : ℤ) : ℚ) - 50| ≤
        3 * ((100 : ℤ) : ℚ) / 4000000 ∧
      |(round6 (normBox 100 100 10 50 10 90).2.1 -
          round6 (normBox 100 100 10 50 10 90).2.2.2 / 2) * ((100 : ℤ) : ℚ) - 10| ≤
        3 * ((100 : ℤ) : ℚ) / 4000000 ∧
      |(round6 (normBox 100 100 10 50 10 90).2.1 +
          round6 (normBox 100 100 10 50 10 90).2.2.2 / 2) * ((100 : ℤ) : ℚ) - 90| ≤
        3 * ((100 : ℤ) : ℚ) / 4000000)) :=
  ⟨by decide, by decide, by decide, by decide,
   convert_box_unit_roundtrip 100 100 10 50 10 90 (by decide) (by decide) (by decide)
     (by decide) (by decide) (by decide) (by decide) (by decide)⟩

/-- C1 counterexample: an annotation that parses successfully, has positive
dimensions and one person object, whose emitted center-x coordinate is `2`,
outside `[0,1]` — the box `(150,250)` lies beyond the 100-pixel image width
and the code performs no clamping. -/
theorem convert_out_of_range_counterexample :
    convert_xml defaultClasses (.doc
      { size := some { width := some "100".toList, height := some "100".toList },
        objects := [
          { name := some "person".toList,
            bndbox := some { xmin := some "150".toList, xmax := some "250".toList,
                             ymin := some "10".toList, ymax := some "25".toList } }] }) =
      ["0 2.000000 0.175000 1.000000 0.150000".toList] ∧
    (normBox 100 100 150 250 10 25).1 = 2 ∧ ¬((2 : ℚ) ≤ 1) := by
  refine ⟨by decide, by decide, by norm_num⟩

/-! ## Claim C4 -/

/-- The code's `(x2 + x1) / 2 / w` equals the claim's `(x1 + x2) / (2·w)`. -/
theorem code_center_eq (w : ℤ) (x1 x2 : ℚ) :
    qDiv (qDiv (qAdd x2 x1) (qOfInt 2)) (qOfInt w) = qDiv (qAdd x1 x2) (qOfInt (2 * w)) := by
  simp only [qAdd_eq, qDiv_eq, qOfInt_eq]
  push_cast
  rw [div_div]
  ring_nf

/-- For a person object, the code's emitted line equals the claim's line. -/
theorem yoloLine_person (w h : ℤ) (x1 x2 y1 y2 : ℚ) :
    yoloLine defaultClasses ("person".toList) w h x1 x2 y1 y2 =
      '0' :: ' ' :: fmt6 (qDiv (qAdd x1 x2) (qOfInt (2 * w))) ++
        ' ' :: fmt6 (qDiv (qAdd y1 y2) (qOfInt (2 * h))) ++
        ' ' :: fmt6 (qDiv (qSub x2 x1) (qOfInt w)) ++
        ' ' :: fmt6 (qDiv (qSub y2 y1) (qOfInt h)) := by
  have hcx := code_center_eq w x1 x2
  have hcy := code_center_eq h y1 y2
  simp only [yoloLine, normBox, hcx, hcy]
  rfl

/-- The object loop produces exactly the claim's per-person lines together
with the `found_person` flag, on well-formed object lists. -/
theorem processObjects_person (w h : ℤ) :
    ∀ objs : List RawObject, (∀ o ∈ objs, personWF o = true) →
      processObjects defaultClasses w h objs =
        some (objs.filterMap (personLine w h), objs.any isPersonB) := by
  intro objs
  induction objs with
  | nil => intro _; simp [processObjects]
  | cons o rest ih =>
    intro hwf
    have hwfo : personWF o = true := hwf o (List.mem_cons_self o rest)
    have hwfr : ∀ o' ∈ rest, personWF o' = true :=
      fun o' ho' => hwf o' (List.mem_cons_of_mem o ho')
    have ihr := ih hwfr
    obtain ⟨onm, obnd⟩ := o
    rcases onm with _ | nm
    · simp [personWF] at hwfo
    · by_cases hp : pyStrip (pyLower nm) = "person".toList
      · rcases obnd with _ | b
        · rw [personWF] at hwfo
          simp only at hwfo
          rw [if_pos hp] at hwfo
          simp at hwfo
        · rw [personWF] at hwfo
          simp only at hwfo
          rw [if_pos hp] at hwfo
          simp only [Bool.and_eq_true, Option.isSome_iff_exists] at hwfo
          obtain ⟨⟨⟨⟨x1, hx1⟩, ⟨x2, hx2⟩⟩, ⟨y1, hy1⟩⟩, ⟨y2, hy2⟩⟩ := hwfo
          have hcont : defaultClasses.contains (pyStrip (pyLower nm)) = true := by
            rw [hp]; rfl
          simp only [processObjects, hcont, if_true, hx1, hx2, hy1, hy2, ihr]
          have hpl : personLine w h ⟨some nm, some b⟩ =
              some ('0' :: ' ' :: fmt6 (qDiv (qAdd x1 x2) (qOfInt (2 * w))) ++
                ' ' :: fmt6 (qDiv (qAdd y1 y2) (qOfInt (2 * h))) ++
                ' ' :: fmt6 (qDiv (qSub x2 x1) (qOfInt w)) ++
                ' ' :: fmt6 (qDiv (qSub y2 y1) (qOfInt h))) := by
            simp [personLine, hp, hx1, hx2, hy1, hy2]
          have hip : isPersonB ⟨some nm, some b⟩ = true := by
            simp [isPersonB, hp]
          rw [List.filterMap_cons, hpl, List.any_cons, hip, hp, yoloLine_person]
          simp
      · have hcont : defaultClasses.contains (pyStrip (pyLower nm)) = false := by
          simp only [defaultClasses, List.contains_cons, List.contains_nil,
            Bool.or_false, beq_eq_false_iff_ne, ne_eq]
          exact hp
        have hpl : personLine w h ⟨some nm, obnd⟩ = none := by
          unfold personLine
          simp only []
          rw [if_neg hp]
        have hip : isPersonB ⟨some nm, obnd⟩ = false := by
          simp only [isPersonB, decide_eq_false_iff_not]
          exact hp
        simp only [processObjects, hcont, Bool.false_eq_true, if_false, ihr,
          List.filterMap_cons, hpl, List.any_cons, hip, Bool.false_or]

/-- When no object is a person, the claim emits no line either. -/
theorem filterMap_personLine_nil (w h : ℤ) (objs : List RawObject)
    (hnone : objs.any isPersonB = false) :
    objs.filterMap (personLine w h) = [] := by
  rw [List.filterMap_eq_nil]
  intro o ho
  have hob : isPersonB o = false := by
    rw [List.any_eq_false] at hnone
    simpa using hnone o ho
  unfold personLine
  unfold isPersonB at hob
  rcases hnm : o.name with _ | nm
  · rfl
  · rw [hnm] at hob
    simp only [decide_eq_false_iff_not] at hob
    simp only [ite_eq_right_iff]
    intro hc
    exact absurd hc hob

/-- C4 (confirmed): on an annotation with positive parsed dimensions whose
objects parse successfully, `convert_xml` emits exactly one line per person
object — `"<class_index> <cx> <cy> <bw> <bh>"` with the claim's formulas,
6-decimal formatting and class index 0 — and no line for any other label. -/
theorem convert_xml_person_lines (d : RawDoc) (sz : RawSize) (w h : ℤ)
    (hs : d.size = some sz) (hw : parseIntOpt sz.width = some w)
    (hh : parseIntOpt sz.height = some h) (hwp : 0 < w) (hhp : 0 < h)
    (hobjs : ∀ o ∈ d.objects, personWF o = true) :
    convert_xml defaultClasses (.doc d) = d.objects.filterMap (personLine w h) := by
  have hpo := processObjects_person w h d.objects hobjs
  have hnz : ¬(w = 0 ∨ h = 0) := by omega
  simp only [convert_xml, convert_core, hs, hw, hh, if_neg hnz, hpo]
  by_cases hany : d.objects.any isPersonB
  · simp [hany]
  · have hany' : d.objects.any isPersonB = false := by
      simpa using hany
    simp [hany', filterMap_personLine_nil w h d.objects hany']

/-- Witness for `convert_xml_person_lines` on a two-object document. -/
theorem convert_xml_person_lines_witness :
    exampleDocC4.size = some { width := some "200".toList, height := some "100".toList } ∧
    parseIntOpt (some "200".toList) = some 200 ∧ (0 : ℤ) < 200 ∧
    (∀ o ∈ exampleDocC4.objects, personWF o = true) ∧
    convert_xml defaultClasses (.doc exampleDocC4) =
      exampleDocC4.objects.filterMap (personLine 200 100) :=
  ⟨rfl, by decide, by decide, by decide,
   convert_xml_person_lines exampleDocC4
     { width := some "200".toList, height := some "100".toList } 200 100 rfl
     (by decide) (by decide) (by decide) (by decide) (by decide)⟩

/-! ## Claim C6 -/

/-- C6 (confirmed): `convert_xml` is total (the embedding returns a value on
every input), and whenever evaluation hits the `except` branch — malformed
markup, or a missing `size`-field/`name`/`bndbox`/coordinate, or a
non-numeric coordinate (`parseFailed`) — the caller receives `[]`. -/
theorem convert_xml_fail_soft (classes : List PyStr) (input : ParseInput)
    (hfail : parseFailed classes input = true) :
    convert_xml classes input = [] := by
  cases input with
  | malformed => rfl
  | doc d =>
    simp only [parseFailed, Option.isNone_iff_eq_none] at hfail
    simp [convert_xml, hfail]

/-- Witness for `convert_xml_fail_soft`: malformed markup yields `[]`. -/
theorem convert_xml_fail_soft_witness :
    parseFailed defaultClasses .malformed = true ∧
    convert_xml defaultClasses .malformed = [] :=
  ⟨by decide, convert_xml_fail_soft defaultClasses .malformed (by decide)⟩

/-! ## Claim C9 -/

/-- C9 (confirmed): an annotation whose parsed width or height equals zero
converts to the empty sequence, whatever objects it contains. -/
theorem convert_xml_zero_dimension (classes : List PyStr) (d : RawDoc) (sz : RawSize)
    (w h : ℤ) (hs : d.size = some sz) (hw : parseIntOpt sz.width = some w)
    (hh : parseIntOpt sz.height = some h) (h0 : w = 0 ∨ h = 0) :
    convert_xml classes (.doc d) = [] := by
  simp [convert_xml, convert_core, hs, hw, hh, if_pos h0]

/-- Witness for `convert_xml_zero_dimension`: a zero-width annotation with a
person object still converts to `[]`. -/
theorem convert_xml_zero_dimension_witness :
    exampleDocZeroW.size = some { width := some "0".toList, height := some "100".toList } ∧
    parseIntOpt (some "0".toList) = some 0 ∧ ((0 : ℤ) = 0 ∨ (100 : ℤ) = 0) ∧
    convert_xml defaultClasses (.doc exampleDocZeroW) = [] :=
  ⟨rfl, by decide, Or.inl rfl,
   convert_xml_zero_dimension defaultClasses exampleDocZeroW
     { width := some "0".toList, height := some "100".toList } 0 100 rfl
     (by decide) (by decide) (Or.inl rfl)⟩

/-! ## Claim C10 -/

/-- If every line of a membership file has a first token, its fold succeeds. -/
theorem foldlM_processLine_ok (styleName : PyStr) :
    ∀ (lines : List PyStr) (m : List (PyStr × PyStr)),
      (∀ l ∈ lines, firstToken? l ≠ none) →
      ∃ m', lines.foldlM (processLine styleName) m = .ok m' := by
  intro lines
  induction lines with
  | nil => intro m _; exact ⟨m, rfl⟩
  | cons l rest ih =>
    intro m hgood
    rcases htok : firstToken? l with _ | tok
    · exact absurd htok (hgood l (List.mem_cons_self l rest))
    · have hrest : ∀ l' ∈ rest, firstToken? l' ≠ none :=
        fun l' hl' => hgood l' (List.mem_cons_of_mem l hl')
      rcases ih (updateAssoc m tok styleName) hrest with ⟨m', hm'⟩
      refine ⟨m', ?_⟩
      simp only [List.foldlM_cons, processLine, htok]
      exact hm'

/-- If some line of a membership file has no token, its fold raises
`IndexError` (it does not skip the line). -/
theorem foldlM_processLine_error (styleName : PyStr) :
    ∀ (lines : List PyStr) (m : List (PyStr × PyStr)),
      (∃ l ∈ lines, firstToken? l = none) →
      lines.foldlM (processLine styleName) m = .error SplitError.indexError := by
  intro lines
  induction lines with
  | nil =>
    intro m hbad
    rcases hbad with ⟨l, hl, _⟩
    exact absurd hl (List.not_mem_nil l)
  | cons l rest ih =>
    intro m hbad
    rcases htok : firstToken? l with _ | tok
    · simp only [List.foldlM_cons, processLine, htok]
      rfl
    · rcases hbad with ⟨l', hl', hbadl⟩
      rcases List.mem_cons.mp hl' with hl' | hl'
      · rw [hl'] at hbadl
        rw [hbadl] at htok
        exact absurd htok (by simp)
      · simp only [List.foldlM_cons, processLine, htok]
        exact ih (updateAssoc m tok styleName) ⟨l', hl', hbadl⟩

/-- A token-less line in a processed file aborts the whole file fold. -/
theorem foldlM_processFile_error :
    ∀ (files : List (PyStr × List PyStr)) (m : List (PyStr × PyStr)),
      hasTokenlessLine files = true →
      files.foldlM processFile m = .error SplitError.indexError := by
  intro files
  induction files with
  | nil => intro m hbad; simp [hasTokenlessLine] at hbad
  | cons f rest ih =>
    intro m hbad
    by_cases hres : reservedNames.contains (pyLower (splitextStem (basename f.1)))
    · have hbad' : hasTokenlessLine rest = true := by
        simp only [hasTokenlessLine, List.any_cons, hres, Bool.not_true, Bool.false_and,
          Bool.false_or] at hbad
        exact hbad
      have hskip : processFile m f = .ok m := by
        unfold processFile
        rw [if_pos hres]
      simp only [List.foldlM_cons, hskip]
      exact ih m hbad'
    · by_cases hfbad : f.2.any (fun l => (firstToken? l).isNone)
      · have herr : processFile m f = .error SplitError.indexError := by
          simp only [processFile, if_neg hres]
          apply foldlM_processLine_error
          rcases List.any_eq_true.mp hfbad with ⟨l, hl, hln⟩
          exact ⟨l, hl, by simpa [Option.isNone_iff_eq_none] using hln⟩
        simp only [List.foldlM_cons, herr]
        rfl
      · have hbad' : hasTokenlessLine rest = true := by
          simp only [hasTokenlessLine, List.any_cons, Bool.or_eq_true] at hbad
          rcases hbad with h | h
          · rw [Bool.and_eq_true] at h
            exact absurd h.2 (by simp [hfbad])
          · exact h
        have hgood : ∀ l ∈ f.2, firstToken? l ≠ none := by
          intro l hl
          have hfb : (f.2.any fun l => (firstToken? l).isNone) = false := by
            simpa using hfbad
          rw [List.any_eq_false] at hfb
          simpa [Option.isNone_iff_eq_none] using hfb l hl
        rcases foldlM_processLine_ok (splitextStem (basename f.1)) f.2 m hgood with ⟨m', hm'⟩
        have hok : processFile m f = .ok m' := by
          simp only [processFile, if_neg hres]
          exact hm'
        simp only [List.foldlM_cons, hok]
        exact ih m' hbad'

/-- The loader raises `IndexError` when some membership file has an empty or
whitespace-only line. -/
theorem loadStyles_error (files : List (PyStr × List PyStr))
    (hbad : hasTokenlessLine files = true) :
    loadStyles (some files) = .error SplitError.indexError := by
  simp only [loadStyles, foldlM_processFile_error files [] hbad]
  rfl

/-- C10 (confirmed): a membership-list file under `ImageSets` containing an
empty or whitespace-only line makes the Category Membership Loader raise an
unhandled `IndexError` (it neither skips the line nor degrades), which aborts
the whole `prepare_data_split` run. -/
theorem loader_blank_line_index_error {σ : Type} (P : PRNG σ)
    (xmlFiles : List (PyStr × ParseInput)) (files : List (PyStr × List PyStr))
    (images : List PyStr) (g : σ) (hbad : hasTokenlessLine files = true) :
    loadStyles (some files) = .error SplitError.indexError ∧
    (prepare_data_split P xmlFiles (some files) images g).err =
      some SplitError.indexError := by
  have hl := loadStyles_error files hbad
  refine ⟨hl, ?_⟩
  simp only [prepare_data_split, hl]
  rfl

/-- Witness for `loader_blank_line_index_error` on a concrete style file with
one whitespace-only line. -/
theorem loader_blank_line_index_error_witness :
    hasTokenlessLine [("ImageSets/Cubism.txt".toList, [" ".toList])] = true ∧
    loadStyles (some [("ImageSets/Cubism.txt".toList, [" ".toList])]) =
      .error SplitError.indexError ∧
    (prepare_data_split demoGen [] (some [("ImageSets/Cubism.txt".toList, [" ".toList])])
      ["a.jpg".toList] 0).err = some SplitError.indexError :=
  ⟨by decide,
   (loader_blank_line_index_error demoGen [] [("ImageSets/Cubism.txt".toList, [" ".toList])]
     ["a.jpg".toList] 0 (by decide)).1,
   (loader_blank_line_index_error demoGen [] [("ImageSets/Cubism.txt".toList, [" ".toList])]
     ["a.jpg".toList] 0 (by decide)).2⟩

/-! ## Claim C5 -/

/-- C5 (amended): provided the membership loader does not itself raise (no
token-less line; without that proviso see
`prepare_unexpected_abort_counterexample`), `prepare_data_split` raises
`NoImagesFound` iff the discovery set is empty, raises `NoValidPairsFound`
iff discovery is nonempty and zero pairs were copied, completes without
raising iff discovery is nonempty and some pair was copied, and the dataset
descriptor is emitted exactly when no error is raised. -/
theorem prepare_fatal_error_iff {σ : Type} (P : PRNG σ)
    (xmlFiles : List (PyStr × ParseInput))
    (imagesets : Option (List (PyStr × List PyStr))) (images : List PyStr) (g : σ)
    (hok : (loadStyles imagesets).isOk = true) :
    ((prepare_data_split P xmlFiles imagesets images g).err =
        some SplitError.noImagesFound ↔ images = []) ∧
    ((prepare_data_split P xmlFiles imagesets images g).err =
        some SplitError.noValidPairsFound ↔
      images ≠ [] ∧ (prepare_data_split P xmlFiles imagesets images g).processed = 0) ∧
    ((prepare_data_split P xmlFiles imagesets images g).err = none ↔
      images ≠ [] ∧ (prepare_data_split P xmlFiles imagesets images g).processed ≠ 0) ∧
    ((prepare_data_split P xmlFiles imagesets images g).descriptorWritten = true ↔
      (prepare_data_split P xmlFiles imagesets images g).err = none) := by
  rcases hls : loadStyles imagesets with e | pr
  · rw [hls] at hok
    simp [Except.isOk, Except.toBool] at hok
  · obtain ⟨hasSets, styleMap⟩ := pr
    by_cases himg : images = []
    · simp [prepare_data_split, hls, himg, emptyRun]
    · by_cases hp : (processAll (indexXmlFiles xmlFiles) hasSets styleMap
          [("train".toList, (makeSplits P g images).1),
           ("val".toList, (makeSplits P g images).2.1),
           ("test".toList, (makeSplits P g images).2.2)]).processed = 0
      · simp [prepare_data_split, hls, himg, finishRun, hp]
      · simp [prepare_data_split, hls, himg, finishRun, hp]

/-- Witness for `prepare_fatal_error_iff`: a run with one valid image and
annotation pair and no `ImageSets` directory. -/
theorem prepare_fatal_error_iff_witness :
    (loadStyles none).isOk = true ∧
    ((prepare_data_split demoGen [("a.xml".toList, .doc exampleDocC4)] none
        ["art/a.jpg".toList] 0).err = some SplitError.noImagesFound ↔
      ["art/a.jpg".toList] = []) ∧
    ((prepare_data_split demoGen [("a.xml".toList, .doc exampleDocC4)] none
        ["art/a.jpg".toList] 0).err = some SplitError.noValidPairsFound ↔
      ["art/a.jpg".toList] ≠ [] ∧
        (prepare_data_split demoGen [("a.xml".toList, .doc exampleDocC4)] none
          ["art/a.jpg".toList] 0).processed = 0) ∧
    ((prepare_data_split demoGen [("a.xml".toList, .doc exampleDocC4)] none
        ["art/a.jpg".toList] 0).err = none ↔
      ["art/a.jpg".toList] ≠ [] ∧
        (prepare_data_split demoGen [("a.xml".toList, .doc exampleDocC4)] none
          ["art/a.jpg".toList] 0).processed ≠ 0) ∧
    ((prepare_data_split demoGen [("a.xml".toList, .doc exampleDocC4)] none
        ["art/a.jpg".toList] 0).descriptorWritten = true ↔
      (prepare_data_split demoGen [("a.xml".toList, .doc exampleDocC4)] none
        ["art/a.jpg".toList] 0).err = none) :=
  ⟨by decide,
   prepare_fatal_error_iff demoGen [("a.xml".toList, .doc exampleDocC4)] none
     ["art/a.jpg".toList] 0 (by decide)⟩

/-- C5 counterexample: with a nonempty discovery set, a valid image and
annotation pair, and one whitespace-only line in a membership file,
`prepare_data_split` aborts with `IndexError` — a fatal error that is neither
`NoImagesFound` nor `NoValidPairsFound`, contradicting "in every other run it
completes without raising". -/
theorem prepare_unexpected_abort_counterexample :
    (["art/a.jpg".toList] : List PyStr) ≠ [] ∧
    (prepare_data_split demoGen [("a.xml".toList, .doc exampleDocC4)]
      (some [("ImageSets/Cubism.txt".toList, [" ".toList])])
      ["art/a.jpg".toList] 0).err = some SplitError.indexError ∧
    some SplitError.indexError ≠ some SplitError.noImagesFound ∧
    some SplitError.indexError ≠ some SplitError.noValidPairsFound := by
  refine ⟨by decide, by decide, by decide, by decide⟩

/-! ## Claim C8 -/

/-- C8 (confirmed): a per-category list file is written if and only if the
category was accumulated during the test-subset pass with strictly more than
5 member paths. -/
theorem style_list_written_iff {σ : Type} (P : PRNG σ)
    (xmlFiles : List (PyStr × ParseInput))
    (imagesets : Option (List (PyStr × List PyStr))) (images : List PyStr) (g : σ)
    (s : PyStr) (ps : List PyStr) :
    (s, ps) ∈ (prepare_data_split P xmlFiles imagesets images g).styleWrites ↔
      ((s, ps) ∈ (prepare_data_split P xmlFiles imagesets images g).styleBuffers ∧
        5 < ps.length) := by
  have key : (prepare_data_split P xmlFiles imagesets images g).styleWrites =
      (prepare_data_split P xmlFiles imagesets images g).styleBuffers.filter
        (fun p => decide (5 < p.2.length)) := by
    rcases hls : loadStyles imagesets with e | pr
    · simp [prepare_data_split, hls, emptyRun]
    · obtain ⟨hasSets, styleMap⟩ := pr
      by_cases himg : images = []
      · simp [prepare_data_split, hls, himg, emptyRun]
      · simp [prepare_data_split, hls, himg, finishRun]
  rw [key, List.mem_filter]
  simp
